import Mathlib

/-!
Shallow embedding of the realtime voice-assistant pipeline
(`discord_voice_assistant`): the streaming sink's RMS gating, downsampling,
epoch/drain mechanism, the sentence splitter of the pipeline orchestrator,
the barge-in handlers, the per-user LLM session bookkeeping, the streaming
LLM client's header and error handling, and the authorization store.
Machine floats are modelled by exact arithmetic (the comparisons involved
are far from the float32 rounding error), Python strings by `List Char`,
and Python dicts by association lists.
-/

namespace DVA

/-! ### Python string helpers -/

/-- Python whitespace: the characters matched by `re`'s `\s` on ASCII text
and removed by `str.strip()`. -/
def pyWs (c : Char) : Bool :=
  c = ' ' || c = '\t' || c = '\n' || c = '\r' || c = '\x0b' || c = '\x0c'

/-- Python `str.strip()`: remove leading and trailing whitespace. -/
def pyStrip (l : List Char) : List Char :=
  ((l.dropWhile pyWs).reverse.dropWhile pyWs).reverse

/-- The non-whitespace characters of a string, in order (used to state
"equal modulo whitespace normalization"). -/
def nonWs (l : List Char) : List Char := l.filter (fun c => !pyWs c)

/-! ### StreamingSink: RMS, downsampling, segmented path (audio/sink.py) -/

/-- `SILENCE_THRESHOLD` from audio/sink.py. -/
def SILENCE_THRESHOLD : Nat := 300

/-- `PLAYBACK_SPEECH_THRESHOLD` from audio/sink.py. -/
def PLAYBACK_SPEECH_THRESHOLD : Nat := 1200

/-- `TARGET_SAMPLE_RATE` from audio/sink.py (also the minimum byte count of
a dispatched utterance: 16 000 bytes = 0.5 s of 16 kHz 16-bit mono). -/
def TARGET_SAMPLE_RATE : Nat := 16000

/-- Sum of squared samples: the numerator of the mean of squares computed by
`StreamingSink._compute_rms`. -/
def sumSq (samples : List Int) : Int := (samples.map (fun x => x * x)).sum

/-- Exact model of `StreamingSink._compute_rms(data) > thr` for a buffer
holding `samples` 16-bit values: the function returns `0.0` for fewer than
two bytes (zero samples), else `sqrt(mean(x^2))`, so the comparison with a
non-negative threshold is `sum(x^2) > thr^2 * n`. -/
def rmsExceeds (samples : List Int) (thr : Nat) : Bool :=
  if samples.length = 0 then false
  else decide ((thr : Int) * thr * samples.length < sumSq samples)

/-- Sums of consecutive disjoint pairs, dropping a trailing odd element
(models the stereo-to-mono `reshape(-1, 2).mean(axis=1)` up to the
division by two, which is folded into the final truncation). -/
def pairSums : List Int → List Int
  | a :: b :: rest => (a + b) :: pairSums rest
  | _ => []

/-- Sums of consecutive disjoint triples, dropping a trailing remainder
(models the tail trim to a multiple of three and `reshape(-1, 3)`). -/
def tripleSums : List Int → List Int
  | a :: b :: c :: rest => (a + b + c) :: tripleSums rest
  | _ => []

/-- `StreamingSink._downsample`: 48 kHz stereo 16-bit to 16 kHz mono.
For an even sample count, L/R pairs are averaged to mono and then groups
of three mono samples are averaged and cast to int16; the float32
computation is exact except for the final division, whose truncation
toward zero equals integer T-division of the group sum (by 6, the two
divisions combined). For an odd count the stereo step is skipped. -/
def downsample (samples : List Int) : List Int :=
  if samples.length % 2 = 0 then
    (tripleSums (pairSums samples)).map (fun s => Int.tdiv s 6)
  else
    (tripleSums samples).map (fun s => Int.tdiv s 3)

/-- The sink state relevant to the segmented path: `_playback_active` and
the monotonically increasing `_epoch` (`StreamingSink.__init__`). -/
structure SinkState where
  playback_active : Bool
  epoch : Nat
deriving Repr, DecidableEq

/-- A pipeline task scheduled by `process_segment`: the user, the raw PCM
and the captured epoch. -/
structure PipelineTask where
  user : Nat
  pcm : List Int
  epoch : Nat
deriving Repr, DecidableEq

/-- `StreamingSink.process_segment`: drop empty input, gate on RMS against
the active threshold (`PLAYBACK_SPEECH_THRESHOLD` during playback,
`SILENCE_THRESHOLD` otherwise) and schedule an independent pipeline task
capturing the current epoch. Returns the scheduled tasks. -/
def process_segment (st : SinkState) (user : Nat) (pcm : List Int) :
    List PipelineTask :=
  if pcm = [] then []
  else
    let threshold :=
      if st.playback_active then PLAYBACK_SPEECH_THRESHOLD else SILENCE_THRESHOLD
    if rmsExceeds pcm threshold then [⟨user, pcm, st.epoch⟩] else []

/-- `StreamingSink._process_raw_segment`: downsample, skip when shorter than
16 000 bytes (two bytes per sample), skip when the captured epoch differs
from the current epoch, otherwise invoke the pipeline callback. Returns
the callback invocation, if any. -/
def process_raw_segment (currentEpoch : Nat) (t : PipelineTask) :
    Option (Nat × List Int) :=
  let mono_16k := downsample t.pcm
  if 2 * mono_16k.length < TARGET_SAMPLE_RATE then none
  else if t.epoch ≠ currentEpoch then none
  else some (t.user, mono_16k)

/-- `StreamingSink.drain`: bump the epoch (buffers and timers, which the
segmented path does not read, are cleared and not modelled). -/
def drain (st : SinkState) : SinkState := { st with epoch := st.epoch + 1 }

/-- A sequence of `process_segment` calls with no intervening `drain()`:
every scheduled task later runs against the unchanged epoch. Returns the
pipeline callback invocations in order. -/
def run_segments (st : SinkState) (segs : List (Nat × List Int)) :
    List (Nat × List Int) :=
  ((segs.map (fun s => process_segment st s.1 s.2)).flatten).filterMap
    (process_raw_segment st.epoch)

/-! ### VoiceBridgeClient.stop_playing and the barge-in call (voice_bridge.py,
voice_session.py) -/

/-- A frame sent over the bridge WebSocket, restricted to the fields of the
stop command. -/
structure StopFrame where
  op : String
  guild_id : String
deriving Repr, DecidableEq

/-- The parameter names of `VoiceBridgeClient.stop_playing` (`self`
excluded): the signature in voice_bridge.py is
`async def stop_playing(self, guild_id: str)`. -/
def stop_playing_params : List String := ["guild_id"]

/-- Body of `VoiceBridgeClient.stop_playing(guild_id)`: send
`{"op": "stop", "guild_id": guild_id}` and do not wait. -/
def stop_playing (guild : String) : List StopFrame := [⟨"stop", guild⟩]

/-- Python call semantics for `bridge.stop_playing(guild, **kwargs)`: a
keyword argument not named in the signature raises `TypeError` before the
body runs; otherwise the body's frames are sent. -/
def call_stop_playing (guild : String) (kwargs : List String) :
    Except String (List StopFrame) :=
  if kwargs.all (fun k => stop_playing_params.contains k) then
    .ok (stop_playing guild)
  else
    .error "TypeError: unexpected keyword argument fade"

/-- The session state read by the barge-in handlers of voice_session.py. -/
structure SessionState where
  is_active : Bool
  sink : SinkState
  interrupted : Bool
  guild_id : String
deriving Repr, DecidableEq

/-- `VoiceSession._on_bridge_audio`: during playback, an un-interrupted
session whose inbound segment has RMS above `PLAYBACK_SPEECH_THRESHOLD`
sets `_interrupted` and calls `stop_playing(guild, fade=True)` inside
`try`/`except Exception` (any error is logged and swallowed); the segment
is then handed to `process_segment`. Returns the new state, the frames
actually sent to the bridge and the scheduled pipeline tasks. -/
def on_bridge_audio (st : SessionState) (user : Nat) (pcm : List Int) :
    SessionState × List StopFrame × List PipelineTask :=
  if !st.is_active then (st, [], [])
  else
    let bargeIn := st.sink.playback_active && !st.interrupted
      && rmsExceeds pcm PLAYBACK_SPEECH_THRESHOLD
    let st' := if bargeIn then { st with interrupted := true } else st
    let frames :=
      if bargeIn then
        match call_stop_playing st.guild_id ["fade"] with
        | .ok fs => fs
        | .error _ => []
      else []
    (st', frames, process_segment st'.sink user pcm)

/-- `VoiceSession._on_speaking_start`: during playback, an un-interrupted
session sets `_interrupted` and calls `stop_playing(guild, fade=True)`
inside `try`/`except Exception`. Returns the new state and the frames
actually sent. -/
def on_speaking_start (st : SessionState) :
    SessionState × List StopFrame :=
  if !st.is_active then (st, [])
  else if st.sink.playback_active && !st.interrupted then
    ({ st with interrupted := true },
      match call_stop_playing st.guild_id ["fade"] with
      | .ok fs => fs
      | .error _ => [])
  else (st, [])

/-! ### Sentence splitter (voice_session.py: `_SENTENCE_END_RE`,
`_split_first_sentence`, `_force_split_long`) -/

/-- `[.!?]`, the sentence-ending punctuation class. -/
def isSentencePunct (c : Char) : Bool := c = '.' || c = '!' || c = '?'

/-- The two-character fixed-width negative lookbehinds of
`_SENTENCE_END_RE` (case-sensitive). -/
def twoCharAbbrevs : List (List Char) :=
  [['M', 'r'], ['M', 's'], ['D', 'r'], ['J', 'r'],
   ['S', 'r'], ['S', 't'], ['v', 's'], ['c', 'o']]

/-- The three-character fixed-width negative lookbehinds of
`_SENTENCE_END_RE` (case-sensitive). -/
def threeCharAbbrevs : List (List Char) :=
  [['M', 'r', 's'], ['e', 't', 'c'], ['i', 'n', 'c'], ['l', 't', 'd']]

/-- Lookbehind `(?<!\d)`: the character immediately before position `i`
is a decimal digit. -/
def digitBefore (s : List Char) (i : Nat) : Bool :=
  if i = 0 then false
  else ((s[i - 1]?).map Char.isDigit).getD false

/-- The abbreviation lookbehinds: the two (resp. three) characters before
position `i` spell one of the listed abbreviations. -/
def abbrevBefore (s : List Char) (i : Nat) : Bool :=
  (decide (2 ≤ i) && twoCharAbbrevs.contains ((s.drop (i - 2)).take 2))
  || (decide (3 ≤ i) && threeCharAbbrevs.contains ((s.drop (i - 3)).take 3))

/-- Attempt of `_SENTENCE_END_RE` at start position `i`: sentence-ending
punctuation not preceded by a digit or an abbreviation, followed by one
whitespace character (match end `i + 2`) or the end of the buffer (match
end `i + 1`). -/
def matchEndAt (s : List Char) (i : Nat) : Option Nat :=
  match s[i]? with
  | none => none
  | some c =>
    if isSentencePunct c && !digitBefore s i && !abbrevBefore s i then
      match s[i + 1]? with
      | some c2 => if pyWs c2 then some (i + 2) else none
      | none => some (i + 1)
    else none

/-- Left-to-right scan of the regex engine; the extra list argument only
drives structural recursion (one element per remaining start position). -/
def searchAux (s : List Char) : Nat → List Char → Option Nat
  | _, [] => none
  | i, _ :: rem =>
    match matchEndAt s i with
    | some e => some e
    | none => searchAux s (i + 1) rem

/-- `_SENTENCE_END_RE.search(buffer)`: end position of the leftmost match,
if any. -/
def searchSentenceEnd (s : List Char) : Option Nat := searchAux s 0 s

/-- `_split_first_sentence(buffer)`: `(buffer[:end].strip(), buffer[end:])`
at the leftmost match of `_SENTENCE_END_RE`, else `(None, buffer)`. -/
def split_first_sentence (buffer : List Char) :
    Option (List Char) × List Char :=
  match searchSentenceEnd buffer with
  | some e => (some (pyStrip (buffer.take e)), buffer.drop e)
  | none => (none, buffer)

/-- `_MAX_SENTENCE_CHARS` from voice_session.py. -/
def MAX_SENTENCE_CHARS : Nat := 300

/-- The clause-break character class `[,;:—–-]` of `_CLAUSE_BREAK_RE`. -/
def isClauseBreak (c : Char) : Bool :=
  c = ',' || c = ';' || c = ':' || c = '—' || c = '–' || c = '-'

/-- Largest index below `n` satisfying `p`, scanning downward (Python
`rfind` and the last `finditer` match). -/
def lastIdxWhere (p : Nat → Bool) : Nat → Option Nat
  | 0 => none
  | n + 1 => if p n then some n else lastIdxWhere p n

/-- Start of the last `_CLAUSE_BREAK_RE` match in `window`: a clause-break
character directly followed by a whitespace character. Matches of this
pattern can never overlap (a character cannot be both whitespace and a
clause break), so the last `finditer` match starts at the largest such
index and ends two characters later. -/
def lastClauseMatchStart (window : List Char) : Option Nat :=
  lastIdxWhere
    (fun j =>
      ((window[j]?).map isClauseBreak).getD false
        && ((window[j + 1]?).map pyWs).getD false)
    window.length

/-- `window.rfind(" ")`: index of the last space character, if any. -/
def lastSpaceIdx (window : List Char) : Option Nat :=
  lastIdxWhere (fun j => window[j]? = some ' ') window.length

/-- `_force_split_long(buffer)`: below 300 characters return
`(None, buffer)`; otherwise split at the end of the last clause break in
the first 300 characters, else after the last space there (when its index
is positive), else hard-cut at 300. -/
def force_split_long (buffer : List Char) :
    Option (List Char) × List Char :=
  if buffer.length < MAX_SENTENCE_CHARS then (none, buffer)
  else
    let window := buffer.take MAX_SENTENCE_CHARS
    match lastClauseMatchStart window with
    | some j =>
      (some (pyStrip (buffer.take (j + 2))), buffer.drop (j + 2))
    | none =>
      match lastSpaceIdx window with
      | some j =>
        if 0 < j then (some (pyStrip (buffer.take j)), buffer.drop (j + 1))
        else (some (buffer.take MAX_SENTENCE_CHARS),
              buffer.drop MAX_SENTENCE_CHARS)
      | none =>
        (some (buffer.take MAX_SENTENCE_CHARS),
         buffer.drop MAX_SENTENCE_CHARS)

/-- One iteration of the sentence-extraction `while True` loop in
`_on_audio_chunk`: try `_split_first_sentence`, fall back to
`_force_split_long`, stop when neither splits. -/
def extract_step (buffer : List Char) : Option (List Char × List Char) :=
  match split_first_sentence buffer with
  | (some s, rest) => some (s, rest)
  | (none, _) =>
    match force_split_long buffer with
    | (some s, rest) => some (s, rest)
    | (none, _) => none

/-- The sentence-extraction loop, with an explicit step budget to keep the
recursion structural: the budget never runs out when it is at least the
buffer length, because every step strictly shrinks the buffer. -/
def extract_sentences_go (fuel : Nat) (buffer : List Char) :
    List (List Char) × List Char :=
  match fuel with
  | 0 => ([], buffer)
  | fuel + 1 =>
    match extract_step buffer with
    | some (s, rest) =>
      let p := extract_sentences_go fuel rest
      (s :: p.1, p.2)
    | none => ([], buffer)

/-- The sentence-extraction loop of `_on_audio_chunk`: repeatedly emit the
next sentence (boundary split, else force split) until the buffer has no
boundary and is under 300 characters. Returns the emitted sentences, in
order, and the residual buffer. -/
def extract_sentences (buffer : List Char) :
    List (List Char) × List Char :=
  extract_sentences_go buffer.length buffer

/-! ### LLM streaming loop of `_on_audio_chunk` (voice_session.py) -/

/-- The loop state of the SSE-consumption section of `_on_audio_chunk`:
`sentence_buf`, `full_response`, and the sentences put on
`sentence_queue` so far (in order). -/
structure LlmLoopState where
  sentence_buf : List Char
  full_response : List Char
  sentences : List (List Char)
deriving Repr, DecidableEq

/-- The state at `sentence_buf = ""`, `full_response = ""`. -/
def init_llm_state : LlmLoopState := ⟨[], [], []⟩

/-- One delta of the `async for` body: append the delta to both buffers,
then run the sentence-extraction loop and enqueue every extracted
sentence. -/
def llm_delta_step (st : LlmLoopState) (delta : List Char) : LlmLoopState :=
  let p := extract_sentences (st.sentence_buf ++ delta)
  ⟨p.2, st.full_response ++ delta, st.sentences ++ p.1⟩

/-- The `async for` loop over the SSE stream: each delta is paired with the
value of the session's `_interrupted` flag observed at the top-of-body
check; a true flag breaks before the delta is consumed. -/
def llm_stream_loop (st : LlmLoopState) :
    List (Bool × List Char) → LlmLoopState
  | [] => st
  | (flag, delta) :: rest =>
    if flag then st else llm_stream_loop (llm_delta_step st delta) rest

/-- After the loop (`_on_audio_chunk`): flush the stripped unterminated
remainder to the sentence queue unless interrupted, and store
`full_response` into `_interrupted_partial_response` when interrupted and
non-empty. `endFlag` is the value of `_interrupted` at these reads.
Returns the final loop state and the stored partial response. -/
def llm_finish (st : LlmLoopState) (endFlag : Bool) :
    LlmLoopState × Option (List Char) :=
  let remaining := pyStrip st.sentence_buf
  let st' :=
    if remaining ≠ [] ∧ endFlag = false then
      { st with sentences := st.sentences ++ [remaining] }
    else st
  let savedPartial :=
    if endFlag = true ∧ st.full_response ≠ [] then some st.full_response
    else none
  (st', savedPartial)

/-- The deltas consumed by the loop: every delta strictly before the first
true interruption-flag reading. -/
def consumedDeltas (checks : List (Bool × List Char)) : List (List Char) :=
  (checks.takeWhile (fun p => !p.1)).map (fun p => p.2)

/-- The parenthetical barge-in notice built in `_on_audio_chunk` around the
saved partial response. -/
def interruption_notice (partialResp : List Char) : List Char :=
  ("(The user interrupted your previous response. You had said: \"").toList
    ++ partialResp
    ++ ("\" before being cut off. The user may want to redirect or follow up.) ").toList

/-- The interruption-context splice at the start of the next run: when
`_interrupted_partial_response` is a non-empty string, prepend the notice
to the user text and clear the field. Returns the effective text handed
to `send_message_stream` and the new field value. -/
def consume_interrupted_partial :
    Option (List Char) → List Char → List Char × Option (List Char)
  | some p, text =>
    if p ≠ [] then (interruption_notice p ++ text, none) else (text, some p)
  | none, text => (text, none)

/-! ### Per-user LLM session ids (auth_store.py `make_session_id`,
voice_session.py `_get_or_create_user_session`) -/

/-- `AuthStore.make_session_id(guild_id, channel_id, user_id)`:
`f"voice:{guild_id}:{channel_id}:{user_id}"`. -/
def make_session_id (guild_id channel_id user_id : Nat) : String :=
  "voice:" ++ toString guild_id ++ ":" ++ toString channel_id
    ++ ":" ++ toString user_id

/-- `VoiceSession._get_or_create_user_session`: return the cached id from
`_user_sessions` or derive, store and return a new one. The dict is
modelled as an association list. -/
def get_or_create_user_session (sessions : List (Nat × String))
    (guild_id channel_id user_id : Nat) : String × List (Nat × String) :=
  match sessions.lookup user_id with
  | some sid => (sid, sessions)
  | none =>
    (make_session_id guild_id channel_id user_id,
     (user_id, make_session_id guild_id channel_id user_id) :: sessions)

/-! ### Streaming LLM client (integrations/openclaw.py
`send_message_stream`) -/

/-- The extra request headers built by `send_message_stream`: the agent
routing header is attached when `config.agent_id` is truthy (non-empty)
and differs from `"default"`. -/
def stream_request_headers (agent_id : String) : List (String × String) :=
  if agent_id ≠ "" ∧ agent_id ≠ "default" then
    [("x-openclaw-agent-id", agent_id)]
  else []

/-- One decoded and stripped line of the SSE response body, with the
`json.loads` / field-extraction outcome abstracted into the constructor:
`notData` covers empty lines and lines not starting with `"data: "`,
`done` is `data: [DONE]`, `payload d` is a parsed JSON object whose
`choices[0].delta.content` extraction gave `d` (the empty string when the
field is missing), and `badJson` a line whose JSON failed to parse. -/
inductive SseLine where
  | notData (line : String)
  | done
  | payload (delta : String)
  | badJson (line : String)
deriving Repr, DecidableEq

/-- The SSE read loop of `send_message_stream` on a 200 response: skip
non-data and malformed lines, stop at `[DONE]`, and yield each non-empty
delta. -/
def sse_deltas : List SseLine → List String
  | [] => []
  | .notData _ :: rest => sse_deltas rest
  | .done :: _ => []
  | .payload d :: rest =>
    if d ≠ "" then d :: sse_deltas rest else sse_deltas rest
  | .badJson _ :: rest => sse_deltas rest

/-- `send_message_stream`, reduced to its observable output: the deltas
yielded for a response with the given HTTP status and body lines. Any
non-200 status logs a warning and yields nothing. -/
def send_message_stream (status : Nat) (lines : List SseLine) :
    List String :=
  if status = 200 then sse_deltas lines else []

/-! ### Authorization store (auth_store.py, voice_manager.py,
voice_session.py) -/

/-- The in-memory `_users` dict of `AuthStore`, keyed by the decimal string
form of the user id; the value is the role. -/
def AuthUsers : Type := List (String × String)

/-- `AuthStore.is_authorized(user_id)`: `str(user_id) in self._users`. -/
def is_authorized (users : AuthUsers) (user_id : Nat) : Bool :=
  (List.lookup (toString user_id) users).isSome

/-- `VoiceManager.is_authorized`: delegate to the auth store. -/
def voice_manager_is_authorized (users : AuthUsers) (user_id : Nat) : Bool :=
  is_authorized users user_id

/-- The `is_authorized` value computed at the top of
`VoiceSession._on_audio_chunk`, which gates the rest of the pipeline. -/
def pipeline_is_authorized (users : AuthUsers) (user_id : Nat) : Bool :=
  voice_manager_is_authorized users user_id

/-- The empty authorization store (no users configured). -/
def emptyAuthUsers : AuthUsers := []

/-! ### The streaming LLM call of `_on_audio_chunk` (voice_session.py,
integrations/openclaw.py) -/

/-- The parameter names of `OpenClawClient.send_message_stream` (`self`
excluded): the signature in integrations/openclaw.py is
`async def send_message_stream(self, session_id, text, sender_name="User",
sender_id="")`. -/
def send_message_stream_params : List String :=
  ["session_id", "text", "sender_name", "sender_id"]

/-- The keyword arguments used at the only call site of
`send_message_stream`, in `_on_audio_chunk` (voice_session.py): the
session id and the effective text are passed positionally, followed by
`sender_name=`, `sender_id=` and `agent_id=`. -/
def llm_call_keyword_args : List String :=
  ["sender_name", "sender_id", "agent_id"]

/-- Python call semantics for
`self._openclaw.send_message_stream(sid, text, **kwargs)`: binding a
keyword argument not named in the signature raises `TypeError` when the
call expression is evaluated — for an async generator function, before
the generator yields anything. -/
def call_send_message_stream (kwargs : List String) : Except String Unit :=
  if kwargs.all (fun k => send_message_stream_params.contains k) then
    .ok ()
  else
    .error "TypeError: unexpected keyword argument agent_id"

/-- The LLM section of `_on_audio_chunk` as the program executes it: the
interruption-context splice runs first, then the
`send_message_stream(..., agent_id=...)` call is attempted with the call
site's keywords. If the binding fails, the `async for` loop, the residual
flush and the partial-response save never run — the enclosing `try` has
only a `finally`, so the error propagates (to the sink's callback guard)
and the field keeps the value the splice left. If the call binds, the
stream loop and the post-loop bookkeeping run as modelled, the save
leaving the field untouched when it stores nothing. Returns the effective
text, the final field value, and the raised error, if any. -/
def on_audio_chunk_llm_phase (prevPartial : Option (List Char))
    (text : List Char) (checks : List (Bool × List Char)) (endFlag : Bool) :
    (List Char × Option (List Char)) × Option String :=
  let spliced := consume_interrupted_partial prevPartial text
  match call_send_message_stream llm_call_keyword_args with
  | .error e => ((spliced.1, spliced.2), some e)
  | .ok _ =>
    let fin := llm_finish (llm_stream_loop init_llm_state checks) endFlag
    ((spliced.1,
      match fin.2 with
      | some p => some p
      | none => spliced.2), none)

/-! ### Supporting lemmas for the sink claims -/

/-- Running the task scheduled for one segment: the callback fires exactly
when the RMS gate passes and the downsampled audio reaches 16 000 bytes
(no drain happened, so the epoch check passes). -/
theorem run_segments_single (st : SinkState) (u : Nat) (pcm : List Int) :
    (process_segment st u pcm).filterMap (process_raw_segment st.epoch)
      = if rmsExceeds pcm
            (if st.playback_active then PLAYBACK_SPEECH_THRESHOLD
             else SILENCE_THRESHOLD)
          && decide (TARGET_SAMPLE_RATE ≤ 2 * (downsample pcm).length)
        then [(u, downsample pcm)] else [] := by
  have hpr : process_raw_segment st.epoch ⟨u, pcm, st.epoch⟩
      = (if TARGET_SAMPLE_RATE ≤ 2 * (downsample pcm).length
         then some (u, downsample pcm) else none) := by
    unfold process_raw_segment
    dsimp only
    by_cases hlen : 2 * (downsample pcm).length < TARGET_SAMPLE_RATE
    · rw [if_pos hlen, if_neg (by omega)]
    · rw [if_neg hlen, if_neg (by simp), if_pos (by omega)]
  unfold process_segment
  by_cases hemp : pcm = []
  · subst hemp
    have hrms : ∀ t, rmsExceeds [] t = false := by intro t; simp [rmsExceeds]
    simp [hrms]
  · rw [if_neg hemp]
    dsimp only
    by_cases hrms : rmsExceeds pcm
        (if st.playback_active then PLAYBACK_SPEECH_THRESHOLD
         else SILENCE_THRESHOLD) = true
    · rw [if_pos hrms, hrms]
      rw [List.filterMap_cons, List.filterMap_nil, hpr]
      by_cases hge : TARGET_SAMPLE_RATE ≤ 2 * (downsample pcm).length
      · rw [if_pos hge]
        simp [hge]
      · rw [if_neg hge]
        simp [hge]
    · rw [if_neg hrms]
      rw [Bool.not_eq_true] at hrms
      simp [hrms]

/-! ### Claim theorems for the sink -/

/-- Claim C2: `drain()` strictly increases the epoch, and a pipeline task
created at or before the pre-drain epoch and not yet past its epoch check
returns without invoking the pipeline callback. -/
theorem c2_drain_epoch_staleness (st : SinkState) (t : PipelineTask)
    (h : t.epoch ≤ st.epoch) :
    st.epoch < (drain st).epoch
    ∧ process_raw_segment (drain st).epoch t = none := by
  have hlt : st.epoch < (drain st).epoch := by simp [drain]
  refine ⟨hlt, ?_⟩
  unfold process_raw_segment
  dsimp only
  by_cases hlen : 2 * (downsample t.pcm).length < TARGET_SAMPLE_RATE
  · rw [if_pos hlen]
  · rw [if_neg hlen, if_pos]
    simp only [drain, ne_eq]
    omega

/-- Witness for C2: a concrete task captured at epoch 0 is skipped after the
drain. -/
theorem c2_drain_epoch_staleness_witness :
    (⟨false, 0⟩ : SinkState).epoch < (drain ⟨false, 0⟩).epoch
    ∧ process_raw_segment (drain ⟨false, 0⟩).epoch ⟨1, [], 0⟩ = none :=
  c2_drain_epoch_staleness ⟨false, 0⟩ ⟨1, [], 0⟩ (by decide)

/-- Claim C3: with no intervening `drain()`, the pipeline callback is
invoked exactly for the segments whose RMS exceeds the active threshold
(`SILENCE_THRESHOLD` normally, `PLAYBACK_SPEECH_THRESHOLD` during
playback) and whose downsampled audio is at least 16 000 bytes; during
playback a segment whose RMS does not exceed 1200 never reaches the
callback. -/
theorem c3_segment_gating (st : SinkState) (segs : List (Nat × List Int)) :
    run_segments st segs
      = (segs.filter (fun s =>
            rmsExceeds s.2
              (if st.playback_active then PLAYBACK_SPEECH_THRESHOLD
               else SILENCE_THRESHOLD)
            && decide (TARGET_SAMPLE_RATE
                ≤ 2 * (downsample s.2).length))).map
          (fun s => (s.1, downsample s.2))
    ∧ (st.playback_active = true →
        ∀ u pcm, rmsExceeds pcm PLAYBACK_SPEECH_THRESHOLD = false →
          run_segments st [(u, pcm)] = []) := by
  constructor
  · unfold run_segments
    induction segs with
    | nil => rfl
    | cons hd tl ih =>
      rw [List.map_cons, List.flatten_cons, List.filterMap_append,
        List.filter_cons, run_segments_single st hd.1 hd.2]
      by_cases hc : (rmsExceeds hd.2
            (if st.playback_active then PLAYBACK_SPEECH_THRESHOLD
             else SILENCE_THRESHOLD)
          && decide (TARGET_SAMPLE_RATE ≤ 2 * (downsample hd.2).length))
          = true
      · rw [if_pos hc, if_pos hc, List.map_cons, ih]
        rfl
      · rw [Bool.not_eq_true] at hc
        rw [hc]
        simpa using ih
  · intro hpb u pcm hrms
    unfold run_segments
    simp only [List.map_cons, List.map_nil, List.flatten_cons,
      List.flatten_nil, List.append_nil, run_segments_single]
    rw [hpb]
    simp [hrms]

/-- Witness for C3: during playback, a concrete segment with RMS 100 (below
1200) produces no callback invocation. -/
theorem c3_segment_gating_witness :
    run_segments ⟨true, 0⟩ [(7, [100, 100])] = [] :=
  (c3_segment_gating ⟨true, 0⟩ [(7, [100, 100])]).2 rfl 7 [100, 100]
    (by decide)

/-! ### Claim theorem for barge-in (code bug) -/

/-- Claim C1 (refuting the stop-frame part): at a concrete barge-in — an
active session, playback active, not yet interrupted, and a segment of
RMS 1500 (or a `speaking_start` event) — both handlers set the
interruption flag, but the `stop_playing(guild, fade=True)` call raises
`TypeError` (the bridge's `stop_playing` accepts only `guild_id`), the
handler's `except` swallows it, and no stop frame is sent. -/
theorem c1_barge_in_sends_no_stop_frame :
    ((on_bridge_audio ⟨true, ⟨true, 0⟩, false, "g"⟩ 42
        [1500, 1500]).1.interrupted = true
      ∧ (on_bridge_audio ⟨true, ⟨true, 0⟩, false, "g"⟩ 42
          [1500, 1500]).2.1 = [])
    ∧ ((on_speaking_start ⟨true, ⟨true, 0⟩, false, "g"⟩).1.interrupted = true
      ∧ (on_speaking_start ⟨true, ⟨true, 0⟩, false, "g"⟩).2 = [])
    ∧ (call_stop_playing "g" ["fade"]).isOk = false := by
  refine ⟨⟨?_, ?_⟩, ⟨?_, ?_⟩, ?_⟩ <;> decide

/-! ### Claim theorems for session ids, the LLM client and authorization -/

/-- Claim C8: the per-user session id is a pure function of guild, channel
and user (two stores that have not yet cached the user derive the same
string, namely `make_session_id`), and within one session it is created
at most once: a repeated call returns the identical cached string and
leaves the map unchanged. -/
theorem c8_user_session_id_stable (s1 : List (Nat × String))
    (g c u : Nat) :
    (∀ s2 : List (Nat × String), s1.lookup u = none → s2.lookup u = none →
      (get_or_create_user_session s1 g c u).1
        = (get_or_create_user_session s2 g c u).1)
    ∧ (s1.lookup u = none →
        (get_or_create_user_session s1 g c u).1 = make_session_id g c u)
    ∧ get_or_create_user_session (get_or_create_user_session s1 g c u).2 g c u
        = ((get_or_create_user_session s1 g c u).1,
           (get_or_create_user_session s1 g c u).2) := by
  refine ⟨?_, ?_, ?_⟩
  · intro s2 h1 h2
    unfold get_or_create_user_session
    rw [h1, h2]
  · intro h1
    unfold get_or_create_user_session
    rw [h1]
  · unfold get_or_create_user_session
    cases hl : s1.lookup u with
    | some sid => rw [hl]
    | none =>
      simp only [hl]
      simp [List.lookup]

/-- Witness for C8: starting from an empty map, the first call derives the
id and the second call returns the same cached string. -/
theorem c8_user_session_id_stable_witness :
    (get_or_create_user_session [] 1 2 3).1 = make_session_id 1 2 3
    ∧ get_or_create_user_session (get_or_create_user_session [] 1 2 3).2 1 2 3
        = ((get_or_create_user_session [] 1 2 3).1,
           (get_or_create_user_session [] 1 2 3).2) :=
  ⟨(c8_user_session_id_stable [] 1 2 3).2.1 rfl,
   (c8_user_session_id_stable [] 1 2 3).2.2⟩

/-- Claim C9 (amended): with a non-empty, non-default agent id the
streaming request carries the `x-openclaw-agent-id` header (the source's
actual header name), and any non-200 response yields no deltas. -/
theorem c9_agent_header_and_error_stream (agent : String) (status : Nat)
    (lines : List SseLine) (h1 : agent ≠ "") (h2 : agent ≠ "default")
    (h3 : status ≠ 200) :
    stream_request_headers agent = [("x-openclaw-agent-id", agent)]
    ∧ send_message_stream status lines = [] := by
  constructor
  · unfold stream_request_headers
    rw [if_pos ⟨h1, h2⟩]
  · unfold send_message_stream
    rw [if_neg h3]

/-- Witness for C9: agent id `"voice"` with a 401 response. -/
theorem c9_agent_header_and_error_stream_witness :
    stream_request_headers "voice" = [("x-openclaw-agent-id", "voice")]
    ∧ send_message_stream 401 [SseLine.payload "hi"] = [] :=
  c9_agent_header_and_error_stream "voice" 401 [SseLine.payload "hi"]
    (by decide) (by decide) (by decide)

/-- Counterexample for C9 as stated: for the non-default agent id
`"voice"` the request carries a header, but none of its header names is
`x-agent-id` (the actual name is `x-openclaw-agent-id`). -/
theorem c9_no_x_agent_id_header :
    ((stream_request_headers "voice").map Prod.fst).contains "x-agent-id"
        = false
    ∧ stream_request_headers "voice" ≠ [] := by
  refine ⟨by decide, by decide⟩

/-- Claim C10: `is_authorized` holds exactly when the decimal string form
of the user id is a key of the users map; with an empty store every user
is rejected (fail-closed), including at the pipeline's authorization
check. -/
theorem c10_fail_closed_authorization (users : AuthUsers) (uid : Nat) :
    (is_authorized users uid = true
      ↔ toString uid ∈ users.map Prod.fst)
    ∧ is_authorized emptyAuthUsers uid = false
    ∧ pipeline_is_authorized emptyAuthUsers uid = false := by
  refine ⟨?_, rfl, rfl⟩
  unfold is_authorized
  induction users with
  | nil => simp
  | cons hd tl ih =>
    obtain ⟨k, v⟩ := hd
    by_cases hk : toString uid = k
    · subst hk
      simp [List.lookup]
    · rw [show List.lookup (toString uid) ((k, v) :: tl)
          = List.lookup (toString uid) tl by
        simp [List.lookup, beq_eq_false_iff_ne.mpr hk]]
      simp [hk, ih]

/-! ### Supporting lemmas for the sentence splitter -/

/-- A `some` result of the optional indexing operator certifies that the
index is in range. -/
theorem getElem?_some_lt {s : List Char} {n : Nat} {c : Char}
    (h : s[n]? = some c) : n < s.length := by
  by_contra hge
  rw [List.getElem?_eq_none (Nat.le_of_not_lt hge)] at h
  exact absurd h (by simp)

/-- A match of `_SENTENCE_END_RE` ends at a positive position that lies
inside the buffer. -/
theorem matchEndAt_bounds {s : List Char} {i e : Nat}
    (h : matchEndAt s i = some e) : 0 < e ∧ e ≤ s.length := by
  unfold matchEndAt at h
  split at h
  · exact absurd h (by simp)
  · rename_i c hg
    have hi : i < s.length := getElem?_some_lt hg
    split at h
    · split at h
      · rename_i c2 hg2
        have hi2 : i + 1 < s.length := getElem?_some_lt hg2
        split at h
        · simp only [Option.some.injEq] at h
          omega
        · exact absurd h (by simp)
      · simp only [Option.some.injEq] at h
        omega
    · exact absurd h (by simp)

/-- Any result of the left-to-right scan comes from a match attempt. -/
theorem searchAux_some {s : List Char} :
    ∀ {i : Nat} {rem : List Char} {e : Nat},
      searchAux s i rem = some e → ∃ j, matchEndAt s j = some e := by
  intro i rem
  induction rem generalizing i with
  | nil => intro e h; exact absurd h (by simp [searchAux])
  | cons hd tl ih =>
    intro e h
    unfold searchAux at h
    cases hm : matchEndAt s i with
    | some e2 => rw [hm] at h; exact ⟨i, hm.trans h⟩
    | none => rw [hm] at h; exact ih h

/-- Bounds for the leftmost regex match of `searchSentenceEnd`. -/
theorem searchSentenceEnd_bounds {s : List Char} {e : Nat}
    (h : searchSentenceEnd s = some e) : 0 < e ∧ e ≤ s.length := by
  obtain ⟨j, hj⟩ := searchAux_some h
  exact matchEndAt_bounds hj

/-- A successful `_split_first_sentence` strictly shrinks the buffer. -/
theorem split_first_sentence_shrinks {b s rest : List Char}
    (h : split_first_sentence b = (some s, rest)) :
    rest.length < b.length := by
  unfold split_first_sentence at h
  cases hs : searchSentenceEnd b with
  | none => rw [hs] at h; exact absurd h (by simp)
  | some e =>
    rw [hs] at h
    obtain ⟨he1, he2⟩ := searchSentenceEnd_bounds hs
    have : rest = b.drop e := (Prod.mk.injEq _ _ _ _ ▸ h).2.symm
    subst this
    rw [List.length_drop]
    omega

/-- A successful `_force_split_long` strictly shrinks the buffer. -/
theorem force_split_long_shrinks {b s rest : List Char}
    (h : force_split_long b = (some s, rest)) :
    rest.length < b.length := by
  unfold force_split_long at h
  split at h
  · exact absurd h (by simp)
  · rename_i hlen
    have hb : MAX_SENTENCE_CHARS ≤ b.length := Nat.le_of_not_lt hlen
    have hb0 : 0 < b.length := by
      have : 0 < MAX_SENTENCE_CHARS := by norm_num [MAX_SENTENCE_CHARS]
      omega
    cases hc : lastClauseMatchStart (b.take MAX_SENTENCE_CHARS) with
    | some j =>
      simp only [hc] at h
      have : rest = b.drop (j + 2) := (Prod.mk.injEq _ _ _ _ ▸ h).2.symm
      subst this
      rw [List.length_drop]
      omega
    | none =>
      simp only [hc] at h
      cases hsp : lastSpaceIdx (b.take MAX_SENTENCE_CHARS) with
      | some j =>
        simp only [hsp] at h
        split at h
        · have : rest = b.drop (j + 1) := (Prod.mk.injEq _ _ _ _ ▸ h).2.symm
          subst this
          rw [List.length_drop]
          omega
        · have : rest = b.drop MAX_SENTENCE_CHARS :=
            (Prod.mk.injEq _ _ _ _ ▸ h).2.symm
          subst this
          rw [List.length_drop]
          norm_num [MAX_SENTENCE_CHARS]
          omega
      | none =>
        simp only [hsp] at h
        have : rest = b.drop MAX_SENTENCE_CHARS :=
          (Prod.mk.injEq _ _ _ _ ▸ h).2.symm
        subst this
        rw [List.length_drop]
        norm_num [MAX_SENTENCE_CHARS]
        omega

/-- A successful extraction step strictly shrinks the buffer. -/
theorem extract_step_shrinks {b s rest : List Char}
    (h : extract_step b = some (s, rest)) : rest.length < b.length := by
  unfold extract_step at h
  cases h1 : split_first_sentence b with
  | mk o r =>
    cases o with
    | some s2 =>
      rw [h1] at h
      simp only [Option.some.injEq, Prod.mk.injEq] at h
      exact h.2 ▸ split_first_sentence_shrinks h1
    | none =>
      rw [h1] at h
      cases h2 : force_split_long b with
      | mk o2 r2 =>
        cases o2 with
        | some s2 =>
          rw [h2] at h
          simp only [Option.some.injEq, Prod.mk.injEq] at h
          exact h.2 ▸ force_split_long_shrinks h2
        | none => rw [h2] at h; exact absurd h (by simp)

/-- The budget of `extract_sentences_go` is irrelevant as long as it covers
the buffer length. -/
theorem extract_sentences_go_congr :
    ∀ (f1 f2 : Nat) (buffer : List Char), buffer.length ≤ f1 →
      buffer.length ≤ f2 →
      extract_sentences_go f1 buffer = extract_sentences_go f2 buffer := by
  intro f1
  induction f1 with
  | zero =>
    intro f2 buffer h1 _
    have hb : buffer = [] := List.length_eq_zero.mp (Nat.le_zero.mp h1)
    subst hb
    cases f2 with
    | zero => rfl
    | succ f2 =>
      simp only [extract_sentences_go]
      cases hs : extract_step [] with
      | some p =>
        obtain ⟨s, rest, rfl⟩ : ∃ a b, p = (a, b) := ⟨p.1, p.2, rfl⟩
        exact absurd (extract_step_shrinks hs) (by simp)
      | none => rfl
  | succ f1 ih =>
    intro f2 buffer h1 h2
    cases f2 with
    | zero =>
      have hb : buffer = [] := List.length_eq_zero.mp (Nat.le_zero.mp h2)
      subst hb
      simp only [extract_sentences_go]
      cases hs : extract_step [] with
      | some p =>
        obtain ⟨s, rest, rfl⟩ : ∃ a b, p = (a, b) := ⟨p.1, p.2, rfl⟩
        exact absurd (extract_step_shrinks hs) (by simp)
      | none => rfl
    | succ f2 =>
      simp only [extract_sentences_go]
      cases hs : extract_step buffer with
      | some p =>
        obtain ⟨s, rest, rfl⟩ : ∃ a b, p = (a, b) := ⟨p.1, p.2, rfl⟩
        have hlt := extract_step_shrinks hs
        dsimp only
        rw [ih f2 rest (by omega) (by omega)]
      | none => rfl

/-- One-step unfolding of `extract_sentences`. -/
theorem extract_sentences_eq (buffer : List Char) :
    extract_sentences buffer
      = match extract_step buffer with
        | some (s, rest) =>
          let p := extract_sentences rest
          (s :: p.1, p.2)
        | none => ([], buffer) := by
  unfold extract_sentences
  cases hb : buffer.length with
  | zero =>
    have hbe : buffer = [] := List.length_eq_zero.mp hb
    subst hbe
    simp only [extract_sentences_go]
    cases hs : extract_step [] with
    | some p =>
      obtain ⟨s, rest, rfl⟩ : ∃ a b, p = (a, b) := ⟨p.1, p.2, rfl⟩
      exact absurd (extract_step_shrinks hs) (by simp)
    | none => rfl
  | succ n =>
    simp only [extract_sentences_go]
    cases hs : extract_step buffer with
    | some p =>
      obtain ⟨s, rest, rfl⟩ : ∃ a b, p = (a, b) := ⟨p.1, p.2, rfl⟩
      have hlt := extract_step_shrinks hs
      dsimp only
      rw [extract_sentences_go_congr n rest.length rest (by omega) (by omega)]
    | none => rfl

/-- `nonWs` distributes over concatenation. -/
theorem nonWs_append (a b : List Char) :
    nonWs (a ++ b) = nonWs a ++ nonWs b := by
  unfold nonWs
  exact List.filter_append ..

/-- Dropping leading whitespace does not change the non-whitespace
characters. -/
theorem nonWs_dropWhile (l : List Char) :
    nonWs (l.dropWhile pyWs) = nonWs l := by
  induction l with
  | nil => rfl
  | cons hd tl ih =>
    rw [List.dropWhile_cons]
    by_cases h : pyWs hd = true
    · rw [if_pos h, ih]
      unfold nonWs
      rw [List.filter_cons]
      simp [h]
    · rw [if_neg h]

/-- `nonWs` commutes with reversal. -/
theorem nonWs_reverse (l : List Char) :
    nonWs l.reverse = (nonWs l).reverse := by
  unfold nonWs
  exact List.filter_reverse ..

/-- Stripping whitespace does not change the non-whitespace characters. -/
theorem nonWs_pyStrip (l : List Char) : nonWs (pyStrip l) = nonWs l := by
  unfold pyStrip
  rw [nonWs_reverse, nonWs_dropWhile, nonWs_reverse, List.reverse_reverse,
    nonWs_dropWhile]

/-- Stripping never lengthens a string. -/
theorem pyStrip_length_le (l : List Char) :
    (pyStrip l).length ≤ l.length := by
  unfold pyStrip
  calc ((l.dropWhile pyWs).reverse.dropWhile pyWs).reverse.length
      = ((l.dropWhile pyWs).reverse.dropWhile pyWs).length :=
        List.length_reverse ..
    _ ≤ (l.dropWhile pyWs).reverse.length :=
        (List.dropWhile_sublist _).length_le
    _ = (l.dropWhile pyWs).length := List.length_reverse ..
    _ ≤ l.length := (List.dropWhile_sublist _).length_le

/-- Characterization of the downward scan: a `some` result is the largest
index below the bound satisfying the predicate. -/
theorem lastIdxWhere_some {p : Nat → Bool} :
    ∀ {n j : Nat}, lastIdxWhere p n = some j →
      p j = true ∧ j < n ∧ ∀ k, j < k → k < n → p k = false := by
  intro n
  induction n with
  | zero => intro j h; exact absurd h (by simp [lastIdxWhere])
  | succ n ih =>
    intro j h
    unfold lastIdxWhere at h
    by_cases hp : p n = true
    · rw [if_pos hp] at h
      obtain rfl : n = j := by injection h
      exact ⟨hp, Nat.lt_succ_self n,
        fun k hk1 hk2 => ((by omega : False)).elim⟩
    · rw [if_neg hp] at h
      rw [Bool.not_eq_true] at hp
      obtain ⟨h1, h2, h3⟩ := ih h
      refine ⟨h1, by omega, fun k hk1 hk2 => ?_⟩
      by_cases hkn : k = n
      · subst hkn
        exact hp
      · exact h3 k (by omega) (by omega)

/-- Characterization of the downward scan: a `none` result means no index
below the bound satisfies the predicate. -/
theorem lastIdxWhere_none {p : Nat → Bool} :
    ∀ {n : Nat}, lastIdxWhere p n = none →
      ∀ k, k < n → p k = false := by
  intro n
  induction n with
  | zero => intro _ k hk; omega
  | succ n ih =>
    intro h k hk
    unfold lastIdxWhere at h
    by_cases hp : p n = true
    · rw [if_pos hp] at h; exact absurd h (by simp)
    · rw [if_neg hp] at h
      rw [Bool.not_eq_true] at hp
      by_cases hkn : k = n
      · subst hkn
        exact hp
      · exact ih h k (by omega)

/-- One extraction step only strips whitespace at the split boundary: the
non-whitespace characters of the emitted piece followed by those of the
remainder are exactly those of the input buffer. -/
theorem extract_step_nonWs {b s rest : List Char}
    (h : extract_step b = some (s, rest)) :
    nonWs s ++ nonWs rest = nonWs b := by
  have piece : ∀ (e : Nat), nonWs (pyStrip (b.take e)) ++ nonWs (b.drop e)
      = nonWs b := by
    intro e
    rw [nonWs_pyStrip, ← nonWs_append, List.take_append_drop]
  unfold extract_step at h
  cases h1 : split_first_sentence b with
  | mk o r =>
    rw [h1] at h
    cases o with
    | some s0 =>
      simp only [Option.some.injEq, Prod.mk.injEq] at h
      obtain ⟨rfl, rfl⟩ := h
      unfold split_first_sentence at h1
      cases hs : searchSentenceEnd b with
      | none => rw [hs] at h1; exact absurd h1 (by simp)
      | some e =>
        rw [hs] at h1
        simp only [Prod.mk.injEq, Option.some.injEq] at h1
        obtain ⟨rfl, rfl⟩ := h1
        exact piece e
    | none =>
      cases h2 : force_split_long b with
      | mk o2 r2 =>
        rw [h2] at h
        cases o2 with
        | none => exact absurd h (by simp)
        | some s0 =>
          simp only [Option.some.injEq, Prod.mk.injEq] at h
          obtain ⟨rfl, rfl⟩ := h
          unfold force_split_long at h2
          split at h2
          · exact absurd h2 (by simp)
          · rename_i hlen
            have hwl : (b.take MAX_SENTENCE_CHARS).length
                = MAX_SENTENCE_CHARS := by
              rw [List.length_take]
              omega
            cases hc : lastClauseMatchStart (b.take MAX_SENTENCE_CHARS) with
            | some j =>
              simp only [hc] at h2
              simp only [Prod.mk.injEq, Option.some.injEq] at h2
              obtain ⟨rfl, rfl⟩ := h2
              exact piece (j + 2)
            | none =>
              simp only [hc] at h2
              cases hsp : lastSpaceIdx (b.take MAX_SENTENCE_CHARS) with
              | some j =>
                simp only [hsp] at h2
                split at h2
                · simp only [Prod.mk.injEq, Option.some.injEq] at h2
                  obtain ⟨rfl, rfl⟩ := h2
                  obtain ⟨hj1, hj2, _⟩ := lastIdxWhere_some hsp
                  rw [hwl] at hj2
                  have hbj : b[j]? = some ' ' := by
                    rw [← List.getElem?_take_of_lt hj2]
                    exact of_decide_eq_true hj1
                  obtain ⟨hjlt, hbje⟩ := List.getElem?_eq_some.mp hbj
                  have hdrop : b.drop j = ' ' :: b.drop (j + 1) := by
                    rw [List.drop_eq_getElem_cons hjlt, hbje]
                  calc nonWs (pyStrip (b.take j)) ++ nonWs (b.drop (j + 1))
                      = nonWs (b.take j) ++ nonWs (b.drop (j + 1)) := by
                        rw [nonWs_pyStrip]
                    _ = nonWs (b.take j) ++ nonWs (' ' :: b.drop (j + 1)) := by
                        unfold nonWs
                        rw [List.filter_cons]
                        simp [pyWs]
                    _ = nonWs (b.take j) ++ nonWs (b.drop j) := by
                        rw [hdrop]
                    _ = nonWs b := by
                        rw [← nonWs_append, List.take_append_drop]
                · simp only [Prod.mk.injEq, Option.some.injEq] at h2
                  obtain ⟨rfl, rfl⟩ := h2
                  rw [← nonWs_append, List.take_append_drop]
              | none =>
                simp only [hsp] at h2
                simp only [Prod.mk.injEq, Option.some.injEq] at h2
                obtain ⟨rfl, rfl⟩ := h2
                rw [← nonWs_append, List.take_append_drop]

/-- The extraction loop only strips whitespace at split boundaries
(statement bounded by an explicit length for the induction). -/
theorem extract_sentences_nonWs_bounded :
    ∀ (n : Nat) (b : List Char), b.length ≤ n →
      nonWs ((extract_sentences b).1.flatten ++ (extract_sentences b).2)
        = nonWs b := by
  intro n
  induction n with
  | zero =>
    intro b hb
    have hbe : b = [] := List.length_eq_zero.mp (Nat.le_zero.mp hb)
    subst hbe
    rfl
  | succ n ih =>
    intro b hb
    rw [extract_sentences_eq b]
    cases hs : extract_step b with
    | some p =>
      obtain ⟨s, rest, rfl⟩ : ∃ x y, p = (x, y) := ⟨p.1, p.2, rfl⟩
      have hlt := extract_step_shrinks hs
      dsimp only
      rw [List.flatten_cons, List.append_assoc, nonWs_append,
        ih rest (by omega), ← extract_step_nonWs hs]
    | none => simp

/-- The extraction loop only strips whitespace at split boundaries. -/
theorem extract_sentences_nonWs (b : List Char) :
    nonWs ((extract_sentences b).1.flatten ++ (extract_sentences b).2)
      = nonWs b :=
  extract_sentences_nonWs_bounded b.length b le_rfl

/-- The LLM read loop preserves the non-whitespace characters: enqueued
sentences plus the residual buffer hold exactly the non-whitespace
characters of the starting state plus all consumed deltas. -/
theorem llm_stream_loop_nonWs (checks : List (Bool × List Char)) :
    ∀ st : LlmLoopState,
      nonWs ((llm_stream_loop st checks).sentences.flatten
          ++ (llm_stream_loop st checks).sentence_buf)
        = nonWs (st.sentences.flatten ++ (st.sentence_buf
            ++ (consumedDeltas checks).flatten)) := by
  induction checks with
  | nil => intro st; simp [llm_stream_loop, consumedDeltas, nonWs_append]
  | cons hd tl ih =>
    intro st
    obtain ⟨flag, delta⟩ := hd
    cases flag with
    | true => simp [llm_stream_loop, consumedDeltas, List.takeWhile, nonWs_append]
    | false =>
      show nonWs ((llm_stream_loop (llm_delta_step st delta) tl).sentences.flatten
          ++ (llm_stream_loop (llm_delta_step st delta) tl).sentence_buf) = _
      rw [ih (llm_delta_step st delta)]
      have hcons : consumedDeltas ((false, delta) :: tl)
          = delta :: consumedDeltas tl := by
        simp [consumedDeltas, List.takeWhile]
      rw [hcons]
      unfold llm_delta_step
      dsimp only
      rw [List.flatten_append, List.flatten_cons]
      have hx := extract_sentences_nonWs (st.sentence_buf ++ delta)
      simp only [nonWs_append] at hx ⊢
      rw [List.append_assoc, ← List.append_assoc (nonWs (extract_sentences (st.sentence_buf ++ delta)).1.flatten)]
      rw [hx]
      simp [List.append_assoc]

/-- The LLM read loop accumulates exactly the consumed deltas into
`full_response`. -/
theorem llm_stream_loop_full (checks : List (Bool × List Char)) :
    ∀ st : LlmLoopState,
      (llm_stream_loop st checks).full_response
        = st.full_response ++ (consumedDeltas checks).flatten := by
  induction checks with
  | nil => intro st; simp [llm_stream_loop, consumedDeltas]
  | cons hd tl ih =>
    intro st
    obtain ⟨flag, delta⟩ := hd
    cases flag with
    | true => simp [llm_stream_loop, consumedDeltas, List.takeWhile]
    | false =>
      show (llm_stream_loop (llm_delta_step st delta) tl).full_response = _
      rw [ih (llm_delta_step st delta)]
      have hcons : consumedDeltas ((false, delta) :: tl)
          = delta :: consumedDeltas tl := by
        simp [consumedDeltas, List.takeWhile]
      rw [hcons]
      unfold llm_delta_step
      simp [List.append_assoc]

/-- Every consumed delta is a delta of the stream. -/
theorem consumedDeltas_mem {checks : List (Bool × List Char)}
    {q : List Char} (h : q ∈ consumedDeltas checks) :
    ∃ p ∈ checks, p.2 = q := by
  unfold consumedDeltas at h
  obtain ⟨p, hp, rfl⟩ := List.mem_map.mp h
  exact ⟨p, (List.takeWhile_sublist _).mem hp, rfl⟩

/-! ### Claim theorems for the sentence splitter and LLM loop -/

set_option maxRecDepth 40000 in
/-- Counterexample for C4 as stated: a single delta of three hundred "a"
characters followed by ". " makes `_split_first_sentence` emit a
301-character sentence, so a sentence emitted by the splitter can exceed
300 characters. -/
theorem c4_boundary_sentence_exceeds_limit :
    ((llm_stream_loop init_llm_state
        [(false, List.replicate 300 'a' ++ ['.', ' '])]).sentences.any
      (fun s => decide (MAX_SENTENCE_CHARS < s.length))) = true := by
  decide

/-- Claim C4 (amended): every chunk emitted by `_force_split_long` is at
most 300 characters, and the split is taken directly after a clause
break's whitespace, at a removed space, or as the hard cut at index 300 —
the only word-breaking case — which happens only when no character at
positions 1..299 is a space, so any space-delimited word broken by it
spans at least positions 1..300. -/
theorem c4_force_split_bounded (buf c rest : List Char)
    (h : force_split_long buf = (some c, rest)) :
    c.length ≤ MAX_SENTENCE_CHARS
    ∧ ((∃ k, 2 ≤ k ∧ k ≤ MAX_SENTENCE_CHARS ∧ c = pyStrip (buf.take k)
          ∧ rest = buf.drop k ∧ (buf[k - 1]?.map pyWs) = some true)
      ∨ (∃ k, 1 ≤ k ∧ k < MAX_SENTENCE_CHARS ∧ c = pyStrip (buf.take k)
          ∧ rest = buf.drop (k + 1) ∧ buf[k]? = some ' ')
      ∨ (c = buf.take MAX_SENTENCE_CHARS
          ∧ rest = buf.drop MAX_SENTENCE_CHARS
          ∧ ∀ i, 1 ≤ i → i < MAX_SENTENCE_CHARS → buf[i]? ≠ some ' ')) := by
  unfold force_split_long at h
  split at h
  · exact absurd h (by simp)
  · rename_i hlen
    have hble : MAX_SENTENCE_CHARS ≤ buf.length := Nat.le_of_not_lt hlen
    have hwl : (buf.take MAX_SENTENCE_CHARS).length = MAX_SENTENCE_CHARS := by
      rw [List.length_take]
      omega
    have hstrip_le : ∀ k : Nat, (pyStrip (buf.take k)).length ≤ k := by
      intro k
      calc (pyStrip (buf.take k)).length ≤ (buf.take k).length :=
            pyStrip_length_le _
        _ ≤ k := by rw [List.length_take]; omega
    cases hcm : lastClauseMatchStart (buf.take MAX_SENTENCE_CHARS) with
    | some j =>
      simp only [hcm] at h
      simp only [Prod.mk.injEq, Option.some.injEq] at h
      obtain ⟨rfl, rfl⟩ := h
      obtain ⟨hj1, _, _⟩ := lastIdxWhere_some hcm
      cases hw0 : (buf.take MAX_SENTENCE_CHARS)[j]? with
      | none => rw [hw0] at hj1; exact absurd hj1 (by simp)
      | some a =>
        cases hw1 : (buf.take MAX_SENTENCE_CHARS)[j + 1]? with
        | none => rw [hw0, hw1] at hj1; exact absurd hj1 (by simp)
        | some bch =>
          rw [hw0, hw1] at hj1
          simp only [Option.map_some, Option.getD_some,
            Bool.and_eq_true] at hj1
          have hj1lt : j + 1 < MAX_SENTENCE_CHARS := by
            have := getElem?_some_lt hw1
            omega
          have hws : pyWs bch = true := hj1.2
          refine ⟨(hstrip_le (j + 2)).trans (by omega),
            Or.inl ⟨j + 2, by omega, by omega, rfl, rfl, ?_⟩⟩
          have : buf[j + 1]? = some bch := by
            rw [← List.getElem?_take_of_lt hj1lt]
            exact hw1
          have hidx : j + 2 - 1 = j + 1 := by omega
          rw [hidx, this]
          simp [hws]
    | none =>
      simp only [hcm] at h
      have hnospace : ∀ i, 1 ≤ i → i < MAX_SENTENCE_CHARS →
          lastSpaceIdx (buf.take MAX_SENTENCE_CHARS) = some 0 ∨
          lastSpaceIdx (buf.take MAX_SENTENCE_CHARS) = none →
          buf[i]? ≠ some ' ' := by
        intro i hi1 hi2 hcase hsp
        have hwi : (buf.take MAX_SENTENCE_CHARS)[i]? = some ' ' := by
          rw [List.getElem?_take_of_lt hi2]
          exact hsp
        cases hcase with
        | inl hs0 =>
          obtain ⟨_, _, hmax⟩ := lastIdxWhere_some hs0
          have := hmax i (by omega) (by rw [hwl]; omega)
          rw [hwi] at this
          exact absurd this (by simp)
        | inr hsn =>
          have := lastIdxWhere_none hsn i (by rw [hwl]; omega)
          rw [hwi] at this
          exact absurd this (by simp)
      cases hsp : lastSpaceIdx (buf.take MAX_SENTENCE_CHARS) with
      | some j =>
        simp only [hsp] at h
        split at h
        · rename_i hjpos
          simp only [Prod.mk.injEq, Option.some.injEq] at h
          obtain ⟨rfl, rfl⟩ := h
          obtain ⟨hj1, hj2, _⟩ := lastIdxWhere_some hsp
          rw [hwl] at hj2
          refine ⟨(hstrip_le j).trans (by omega),
            Or.inr (Or.inl ⟨j, by omega, hj2, rfl, rfl, ?_⟩)⟩
          rw [← List.getElem?_take_of_lt hj2]
          exact of_decide_eq_true hj1
        · rename_i hjzero
          simp only [Prod.mk.injEq, Option.some.injEq] at h
          obtain ⟨rfl, rfl⟩ := h
          have hj0 : j = 0 := by omega
          refine ⟨by rw [List.length_take]; omega,
            Or.inr (Or.inr ⟨rfl, rfl, fun i hi1 hi2 =>
              hnospace i hi1 hi2 (Or.inl (hj0 ▸ hsp))⟩)⟩
      | none =>
        simp only [hsp] at h
        simp only [Prod.mk.injEq, Option.some.injEq] at h
        obtain ⟨rfl, rfl⟩ := h
        refine ⟨by rw [List.length_take]; omega,
          Or.inr (Or.inr ⟨rfl, rfl, fun i hi1 hi2 =>
            hnospace i hi1 hi2 (Or.inr hsp)⟩)⟩

set_option maxRecDepth 40000 in
/-- Witness for C4 (amended): a 301-character buffer without any break
point is hard-cut, and the emitted chunk has exactly 300 characters. -/
theorem c4_force_split_bounded_witness :
    force_split_long (List.replicate 300 'a' ++ ['b'])
      = (some (List.replicate 300 'a'), ['b'])
    ∧ (List.replicate 300 'a').length ≤ MAX_SENTENCE_CHARS :=
  ⟨by decide,
   (c4_force_split_bounded (List.replicate 300 'a' ++ ['b'])
      (List.replicate 300 'a') ['b'] (by decide)).1⟩

/-- Claim C5: for every delta sequence, the concatenation of all emitted
sentences plus the residual buffer equals the accumulated text up to
whitespace normalization — the splitter only strips whitespace at split
boundaries and never drops or reorders non-whitespace characters. -/
theorem c5_splitter_round_trip (deltas : List (List Char)) :
    nonWs ((llm_stream_loop init_llm_state
          (deltas.map (fun d => (false, d)))).sentences.flatten
        ++ (llm_stream_loop init_llm_state
          (deltas.map (fun d => (false, d)))).sentence_buf)
      = nonWs deltas.flatten := by
  rw [llm_stream_loop_nonWs]
  have hcd : consumedDeltas (deltas.map (fun d => (false, d))) = deltas := by
    induction deltas with
    | nil => rfl
    | cons hd tl ih =>
      unfold consumedDeltas at ih ⊢
      simp only [List.map_cons, List.takeWhile_cons] at ih ⊢
      simp [ih]
  rw [hcd]
  rfl

/-- Counterexample for C6 as stated: `"e.g. this"` is split at `"e.g."`,
before any real sentence terminator, because neither `"e.g"` nor `".g"`
is in the abbreviation set. -/
theorem c6_eg_abbreviation_splits :
    split_first_sentence ("e.g. this".toList)
      = (some ("e.g.".toList), "this".toList) := by
  decide

/-- Claim C6 (amended): `"Mr. Smith"` and `"3.14 is pi"` produce no split,
and in general a terminator preceded by a digit or by one of the listed
abbreviations is not a match of `_SENTENCE_END_RE`; `"e.g. this"` is not
protected. -/
theorem c6_abbreviation_guard :
    split_first_sentence ("Mr. Smith".toList) = (none, "Mr. Smith".toList)
    ∧ split_first_sentence ("3.14 is pi".toList)
        = (none, "3.14 is pi".toList)
    ∧ (∀ s i, digitBefore s i = true → matchEndAt s i = none)
    ∧ (∀ s i, abbrevBefore s i = true → matchEndAt s i = none) := by
  refine ⟨by decide, by decide, ?_, ?_⟩
  · intro s i hd
    unfold matchEndAt
    split
    · rfl
    · rw [if_neg (by simp [hd])]
  · intro s i ha
    unfold matchEndAt
    split
    · rfl
    · rw [if_neg (by simp [ha])]

/-- Witness for C6: concrete digit and abbreviation guards. -/
theorem c6_abbreviation_guard_witness :
    matchEndAt ("3. x".toList) 1 = none
    ∧ matchEndAt ("Mr. Smith".toList) 2 = none :=
  ⟨c6_abbreviation_guard.2.2.1 ("3. x".toList) 1 (by decide),
   c6_abbreviation_guard.2.2.2 ("Mr. Smith".toList) 2 (by decide)⟩

/-- Claim C7 (refuting the carry-over on the code as written): every
streaming LLM call in `_on_audio_chunk` passes the keyword argument
`agent_id`, which `send_message_stream`'s signature does not accept, so
the call raises `TypeError` before a single delta is yielded and the run
aborts; even for a stream that would have yielded the delta `"Hi"` with
the interruption flag set at the end, no partial response is ever saved
(`_interrupted_partial_response` stays `None`) and no notice is ever
prepended, so the claimed save-and-consume protocol can never operate. -/
theorem c7_stream_call_raises :
    (call_send_message_stream llm_call_keyword_args).isOk = false
    ∧ (on_audio_chunk_llm_phase none ['h', 'i']
        [(false, ['H', 'i'])] true).2
      = some "TypeError: unexpected keyword argument agent_id"
    ∧ (on_audio_chunk_llm_phase none ['h', 'i']
        [(false, ['H', 'i'])] true).1.2 = none
    ∧ (on_audio_chunk_llm_phase none ['h', 'i']
        [(false, ['H', 'i'])] true).1.1 = ['h', 'i'] := by
  refine ⟨by decide, by decide, by decide, by decide⟩

end DVA
